import Mathlib

/-!
# Moving-average crossover trading simulation: a verified model

A shallow embedding of `src/main.cpp` (a moving-average crossover trading
backtest) into Lean 4, together with theorems settling the specification
claims about it.

Modelling conventions:
* C++ `double` values are modelled as exact rationals `ℚ`; the claims under
  study concern exact arithmetic identities, comparisons and sign invariants,
  none of which hinge on binary floating-point rounding.
* C++ `int` is modelled as `ℤ`; `size_t` conversions (which occur in the
  signed/unsigned comparisons `prices.size() < period` and
  `currentPrices.size() < longWindow`) are modelled by reduction modulo 2^64
  (`usize`), exactly as the C++ integral conversion prescribes.
* The `double → int` conversion in `int sharesToBuy = portfolioValue / price`
  truncates toward zero (`truncQ`).
* The event log models the lines printed by the program (day indices are the
  1-based values the program prints).
-/

set_option autoImplicit false

namespace TradingSim

/-- C++ conversion of a (64-bit-or-narrower) signed integer value to `size_t`:
reduction modulo `2^64`. -/
def usize (n : ℤ) : ℕ := (n % (2 ^ 64 : ℤ)).toNat

/-- C++ `double → int` conversion: truncation toward zero. -/
def truncQ (q : ℚ) : ℤ := if q < 0 then -⌊-q⌋ else ⌊q⌋

/-- Embedding of `calculateSMA(const std::vector<double>& prices, int period)`:
if fewer than `period` prices are available (a `size_t` vs `int` comparison,
hence `usize`) return the sentinel `0.0`; otherwise sum the last `period`
prices (`std::accumulate(prices.end() - period, prices.end(), 0.0)`, a
left fold starting from `0.0`) and divide by `period`. -/
def calculateSMA (prices : List ℚ) (period : ℤ) : ℚ :=
  if prices.length < usize period then 0
  else ((prices.drop (prices.length - usize period)).foldl (· + ·) 0) / (period : ℚ)

/-- The mutable state of the loop body of `runTradingSimulation`:
portfolio cash (`portfolioValue`), integer share count, position flag,
and the previous day's two moving averages. -/
structure SimState where
  cash : ℚ
  sharesOwned : ℤ
  positionOpen : Bool
  prevShortSMA : ℚ
  prevLongSMA : ℚ
deriving DecidableEq, Repr

/-- Initial state of `runTradingSimulation`: $10,000 cash, no shares,
no position, both previous SMAs 0.0. -/
def initState : SimState :=
  { cash := 10000, sharesOwned := 0, positionOpen := false,
    prevShortSMA := 0, prevLongSMA := 0 }

/-- One event record printed by the simulation. Day indices are the 1-based
`i + 1` values the program prints. -/
inductive Event where
  | buy (day : ℕ) (price : ℚ) (shares : ℤ)
  | sell (day : ℕ) (price : ℚ) (shares : ℤ) (cash : ℚ)
  | endOfRun (shares : ℤ) (price : ℚ)
deriving DecidableEq, Repr

/-- The golden-cross BUY guard of `runTradingSimulation`:
`shortSMA > longSMA && prevShortSMA <= prevLongSMA && !positionOpen`. -/
def buySignal (st : SimState) (shortSMA longSMA : ℚ) : Prop :=
  shortSMA > longSMA ∧ st.prevShortSMA ≤ st.prevLongSMA ∧ st.positionOpen = false

/-- The death-cross SELL guard of `runTradingSimulation`:
`shortSMA < longSMA && prevShortSMA >= prevLongSMA && positionOpen`. -/
def sellSignal (st : SimState) (shortSMA longSMA : ℚ) : Prop :=
  shortSMA < longSMA ∧ st.prevShortSMA ≥ st.prevLongSMA ∧ st.positionOpen = true

instance (st : SimState) (a b : ℚ) : Decidable (buySignal st a b) :=
  inferInstanceAs (Decidable (_ ∧ _ ∧ _))

instance (st : SimState) (a b : ℚ) : Decidable (sellSignal st a b) :=
  inferInstanceAs (Decidable (_ ∧ _ ∧ _))

/-- One iteration of the `for` loop of `runTradingSimulation`, for 0-based day
index `n` (after `currentPrices.push_back(marketData[n])`, so the observed
prefix is `md.take (n+1)`): warm-up skip while fewer than `longWindow` prices
are observed (a `size_t` vs `int` comparison, hence `usize`), otherwise
compute both SMAs, run the golden-cross BUY branch, else the death-cross SELL
branch, and unconditionally update the previous SMAs (the C++ assigns
`prevShortSMA`/`prevLongSMA` after the branch; here each branch's result
carries that update). The day's price is `marketData[n]` (`md.getD n 0`).
Returns the new state and the event printed on that day, if any. -/
def processDay (md : List ℚ) (shortWindow longWindow : ℤ) (n : ℕ)
    (st : SimState) : SimState × Option Event :=
  let currentPrices := md.take (n + 1)
  if currentPrices.length < usize longWindow then (st, none)
  else
    let shortSMA := calculateSMA currentPrices shortWindow
    let longSMA := calculateSMA currentPrices longWindow
    let price := md.getD n 0
    let r :=
      if buySignal st shortSMA longSMA then
        (⟨st.cash - truncQ (st.cash / price) * price,
            truncQ (st.cash / price), true,
            st.prevShortSMA, st.prevLongSMA⟩,
          some (Event.buy (n + 1) price (truncQ (st.cash / price))))
      else if sellSignal st shortSMA longSMA then
        (⟨st.cash + st.sharesOwned * price, 0, false,
            st.prevShortSMA, st.prevLongSMA⟩,
          some (Event.sell (n + 1) price st.sharesOwned
            (st.cash + st.sharesOwned * price)))
      else (st, none)
    (⟨r.1.cash, r.1.sharesOwned, r.1.positionOpen, shortSMA, longSMA⟩, r.2)

/-- State and accumulated event log after the first `n` iterations of the
loop of `runTradingSimulation`. -/
def stateAfter (md : List ℚ) (shortWindow longWindow : ℤ) :
    ℕ → SimState × List Event
  | 0 => (initState, [])
  | n + 1 =>
    let r := stateAfter md shortWindow longWindow n
    let r' := processDay md shortWindow longWindow n r.1
    (r'.1, r.2 ++ r'.2.toList)

/-- The whole of `runTradingSimulation`: run the loop over all of `md`, then,
if a position is still open, liquidate it at the last price
(`marketData.back()`). The C++ locals `sharesOwned`/`positionOpen` go out of
scope right after this; the forced close is modelled as selling the held
shares, so the final state holds no position. Returns the final state and the
full event log. -/
def runSim (md : List ℚ) (shortWindow longWindow : ℤ) :
    SimState × List Event :=
  if (stateAfter md shortWindow longWindow md.length).1.positionOpen then
    (⟨(stateAfter md shortWindow longWindow md.length).1.cash +
        (stateAfter md shortWindow longWindow md.length).1.sharesOwned *
          md.getD (md.length - 1) 0,
        0, false,
        (stateAfter md shortWindow longWindow md.length).1.prevShortSMA,
        (stateAfter md shortWindow longWindow md.length).1.prevLongSMA⟩,
      (stateAfter md shortWindow longWindow md.length).2 ++
        [Event.endOfRun (stateAfter md shortWindow longWindow md.length).1.sharesOwned
          (md.getD (md.length - 1) 0)])
  else stateAfter md shortWindow longWindow md.length

/-- The final portfolio value printed by the program. -/
def finalValue (md : List ℚ) (shortWindow longWindow : ℤ) : ℚ :=
  (runSim md shortWindow longWindow).1.cash

/-- The random-walk price generator of `main`, as a function of the stream of
daily increments drawn from the generator: starting from `lastPrice`, add each
increment in turn, clamp at the floor 10.0, and record the price. -/
def priceWalk : ℚ → List ℚ → List ℚ
  | _, [] => []
  | lastPrice, c :: cs =>
    let p0 := lastPrice + c
    let p := if p0 < 10 then 10 else p0
    p :: priceWalk p cs

/-- `main`'s market-data generation: a `priceWalk` from the start price 100.0.
The Mersenne-Twister engine and the normal distribution are deterministic
functions of the seed, so a seeded run is determined by its increment stream
`changes`. -/
def generatePrices (changes : List ℚ) : List ℚ :=
  priceWalk 100 changes

/-! ### Concrete price series used in the claims -/

/-- The monotone series of the end-to-end test: `price[i] = 100 + i` for
1-based day `i = 1, …, 200`, i.e. the 0-based `k`-th entry is `101 + k`. -/
def monoPrices : List ℚ := (List.range 200).map (fun k => (101 + k : ℚ))

/-- A 30-day increasing series all of whose prices exceed the $10,000
starting cash, so the first golden cross buys `floor(10000/price) = 0`
shares. -/
def highPrices : List ℚ := (List.range 30).map (fun k => (10001 + k : ℚ))

/-! ### Basic lemmas about the embedding -/

lemma usize_eq_toNat {n : ℤ} (h0 : 0 ≤ n) (h : n < 2 ^ 64) :
    usize n = n.toNat := by
  unfold usize
  rw [Int.emod_eq_of_lt h0 h]

lemma truncQ_of_nonneg {q : ℚ} (h : 0 ≤ q) : truncQ q = ⌊q⌋ := by
  unfold truncQ
  rw [if_neg (not_lt.mpr h)]

lemma truncQ_nonneg {q : ℚ} (h : 0 ≤ q) : 0 ≤ truncQ q := by
  rw [truncQ_of_nonneg h]
  exact Int.floor_nonneg.mpr h

lemma truncQ_div_mul_le {c p : ℚ} (hc : 0 ≤ c) (hp : 0 < p) :
    (truncQ (c / p) : ℚ) * p ≤ c := by
  rw [truncQ_of_nonneg (div_nonneg hc hp.le)]
  calc (⌊c / p⌋ : ℚ) * p ≤ c / p * p :=
        mul_le_mul_of_nonneg_right (Int.floor_le _) hp.le
    _ = c := div_mul_cancel₀ _ hp.ne'

lemma getD_nonneg {md : List ℚ} (hpos : ∀ p ∈ md, 0 < p) (n : ℕ) :
    0 ≤ md.getD n 0 := by
  by_cases hn : n < md.length
  · rw [List.getD_eq_getElem _ _ hn]
    exact (hpos _ (List.getElem_mem hn)).le
  · rw [List.getD_eq_default _ _ (le_of_not_lt hn)]

/-! ### Unfolding lemmas for the day step and the run -/

lemma processDay_warmup {md : List ℚ} {s l : ℤ} {n : ℕ} (st : SimState)
    (h : (md.take (n + 1)).length < usize l) :
    processDay md s l n st = (st, none) := by
  simp only [processDay]
  rw [if_pos h]

lemma processDay_buy {md : List ℚ} {s l : ℤ} {n : ℕ} {st : SimState}
    (hw : ¬ (md.take (n + 1)).length < usize l)
    (hb : buySignal st (calculateSMA (md.take (n + 1)) s)
      (calculateSMA (md.take (n + 1)) l)) :
    processDay md s l n st =
      (⟨st.cash - truncQ (st.cash / md.getD n 0) * md.getD n 0,
          truncQ (st.cash / md.getD n 0), true,
          calculateSMA (md.take (n + 1)) s, calculateSMA (md.take (n + 1)) l⟩,
        some (Event.buy (n + 1) (md.getD n 0)
          (truncQ (st.cash / md.getD n 0)))) := by
  simp only [processDay]
  rw [if_neg hw, if_pos hb]

lemma processDay_sell {md : List ℚ} {s l : ℤ} {n : ℕ} {st : SimState}
    (hw : ¬ (md.take (n + 1)).length < usize l)
    (hb : ¬ buySignal st (calculateSMA (md.take (n + 1)) s)
      (calculateSMA (md.take (n + 1)) l))
    (hs : sellSignal st (calculateSMA (md.take (n + 1)) s)
      (calculateSMA (md.take (n + 1)) l)) :
    processDay md s l n st =
      (⟨st.cash + st.sharesOwned * md.getD n 0, 0, false,
          calculateSMA (md.take (n + 1)) s, calculateSMA (md.take (n + 1)) l⟩,
        some (Event.sell (n + 1) (md.getD n 0) st.sharesOwned
          (st.cash + st.sharesOwned * md.getD n 0))) := by
  simp only [processDay]
  rw [if_neg hw, if_neg hb, if_pos hs]

lemma processDay_none {md : List ℚ} {s l : ℤ} {n : ℕ} {st : SimState}
    (hw : ¬ (md.take (n + 1)).length < usize l)
    (hb : ¬ buySignal st (calculateSMA (md.take (n + 1)) s)
      (calculateSMA (md.take (n + 1)) l))
    (hs : ¬ sellSignal st (calculateSMA (md.take (n + 1)) s)
      (calculateSMA (md.take (n + 1)) l)) :
    processDay md s l n st =
      (⟨st.cash, st.sharesOwned, st.positionOpen,
          calculateSMA (md.take (n + 1)) s, calculateSMA (md.take (n + 1)) l⟩,
        none) := by
  simp only [processDay]
  rw [if_neg hw, if_neg hb, if_neg hs]

lemma stateAfter_succ (md : List ℚ) (s l : ℤ) (n : ℕ) :
    stateAfter md s l (n + 1) =
      ((processDay md s l n (stateAfter md s l n).1).1,
        (stateAfter md s l n).2 ++
          (processDay md s l n (stateAfter md s l n).1).2.toList) := rfl

lemma runSim_pos (md : List ℚ) (s l : ℤ)
    (h : (stateAfter md s l md.length).1.positionOpen = true) :
    runSim md s l =
      (⟨(stateAfter md s l md.length).1.cash +
          (stateAfter md s l md.length).1.sharesOwned * md.getD (md.length - 1) 0,
          0, false,
          (stateAfter md s l md.length).1.prevShortSMA,
          (stateAfter md s l md.length).1.prevLongSMA⟩,
        (stateAfter md s l md.length).2 ++
          [Event.endOfRun (stateAfter md s l md.length).1.sharesOwned
            (md.getD (md.length - 1) 0)]) := by
  unfold runSim
  rw [if_pos h]

lemma runSim_neg (md : List ℚ) (s l : ℤ)
    (h : (stateAfter md s l md.length).1.positionOpen = false) :
    runSim md s l = stateAfter md s l md.length := by
  unfold runSim
  rw [if_neg (by rw [h]; exact Bool.false_ne_true)]

/-! ### Reachable-state invariants -/

/-- A closed position holds no shares. -/
def SharesInv (st : SimState) : Prop :=
  st.positionOpen = false → st.sharesOwned = 0

lemma sharesInv_processDay {md : List ℚ} {s l : ℤ} {n : ℕ} {st : SimState}
    (h : SharesInv st) : SharesInv (processDay md s l n st).1 := by
  by_cases hw : (md.take (n + 1)).length < usize l
  · rw [processDay_warmup st hw]; exact h
  · by_cases hb : buySignal st (calculateSMA (md.take (n + 1)) s)
        (calculateSMA (md.take (n + 1)) l)
    · rw [processDay_buy hw hb]
      intro hfalse
      exact absurd hfalse (by simp)
    · by_cases hs : sellSignal st (calculateSMA (md.take (n + 1)) s)
          (calculateSMA (md.take (n + 1)) l)
      · rw [processDay_sell hw hb hs]
        intro _
        rfl
      · rw [processDay_none hw hb hs]
        exact h

lemma sharesInv_stateAfter (md : List ℚ) (s l : ℤ) (n : ℕ) :
    SharesInv (stateAfter md s l n).1 := by
  induction n with
  | zero => intro _; rfl
  | succ n ih =>
    rw [stateAfter_succ]
    exact sharesInv_processDay ih

/-- Cash and share count are nonnegative. -/
def NonnegInv (st : SimState) : Prop :=
  0 ≤ st.cash ∧ 0 ≤ st.sharesOwned

lemma nonnegInv_processDay {md : List ℚ} {s l : ℤ} {n : ℕ} {st : SimState}
    (h : NonnegInv st) (hp : 0 ≤ md.getD n 0) :
    NonnegInv (processDay md s l n st).1 := by
  by_cases hw : (md.take (n + 1)).length < usize l
  · rw [processDay_warmup st hw]; exact h
  · by_cases hb : buySignal st (calculateSMA (md.take (n + 1)) s)
        (calculateSMA (md.take (n + 1)) l)
    · rw [processDay_buy hw hb]
      rcases eq_or_lt_of_le hp with hp0 | hp0
      · constructor
        · show 0 ≤ st.cash - truncQ (st.cash / md.getD n 0) * md.getD n 0
          rw [← hp0, mul_zero, sub_zero]
          exact h.1
        · exact truncQ_nonneg (div_nonneg h.1 hp)
      · exact ⟨sub_nonneg.mpr (truncQ_div_mul_le h.1 hp0),
          truncQ_nonneg (div_nonneg h.1 hp)⟩
    · by_cases hs : sellSignal st (calculateSMA (md.take (n + 1)) s)
        (calculateSMA (md.take (n + 1)) l)
      · rw [processDay_sell hw hb hs]
        refine ⟨add_nonneg h.1 (mul_nonneg ?_ hp), le_refl 0⟩
        exact_mod_cast h.2
      · rw [processDay_none hw hb hs]
        exact h

lemma nonnegInv_stateAfter (md : List ℚ) (s l : ℤ)
    (hpos : ∀ p ∈ md, 0 < p) (n : ℕ) :
    NonnegInv (stateAfter md s l n).1 := by
  induction n with
  | zero => exact ⟨by norm_num [stateAfter, initState], le_refl 0⟩
  | succ n ih =>
    rw [stateAfter_succ]
    exact nonnegInv_processDay ih (getD_nonneg hpos n)

/-- Every price the random-walk generator emits is at least the 10.0 floor
(so, in particular, positive — the hypothesis of the cash/shares sign
invariant holds for every generated sequence). -/
lemma priceWalk_ge_floor (cs : List ℚ) :
    ∀ lastPrice : ℚ, ∀ p ∈ priceWalk lastPrice cs, (10 : ℚ) ≤ p := by
  induction cs with
  | nil =>
    intro lastPrice p hp
    simp [priceWalk] at hp
  | cons c cs ih =>
    intro lastPrice p hp
    simp only [priceWalk] at hp
    rcases List.mem_cons.mp hp with h | h
    · subst h
      by_cases h10 : lastPrice + c < 10
      · rw [if_pos h10]
      · rw [if_neg h10]
        exact le_of_not_lt h10
    · exact ih _ p h

lemma generatePrices_pos (changes : List ℚ) :
    ∀ p ∈ generatePrices changes, 0 < p := fun p hp =>
  lt_of_lt_of_le (by norm_num) (priceWalk_ge_floor changes 100 p hp)

lemma buySignal_def (st : SimState) (a b : ℚ) :
    buySignal st a b ↔
      (a > b ∧ st.prevShortSMA ≤ st.prevLongSMA ∧ st.positionOpen = false) :=
  Iff.rfl

lemma sellSignal_def (st : SimState) (a b : ℚ) :
    sellSignal st a b ↔
      (a < b ∧ st.prevShortSMA ≥ st.prevLongSMA ∧ st.positionOpen = true) :=
  Iff.rfl

/-! ### The claims -/

/-- C2: for every price sequence and every positive `period` (a C++ `int`,
hence below `2^31`): with at least `period` prices, `calculateSMA` returns
the arithmetic mean of the last `period` elements; with fewer, it returns
exactly the sentinel `0.0`. -/
theorem calculateSMA_contract (prices : List ℚ) (period : ℤ)
    (h0 : 0 < period) (hint : period < 2 ^ 31) :
    (period.toNat ≤ prices.length →
      calculateSMA prices period =
        (prices.drop (prices.length - period.toNat)).sum / (period : ℚ)) ∧
    (prices.length < period.toNat →
      calculateSMA prices period = 0) := by
  have hu : usize period = period.toNat :=
    usize_eq_toNat h0.le (lt_trans hint (by norm_num))
  constructor
  · intro hlen
    unfold calculateSMA
    rw [hu, if_neg (not_lt.mpr hlen), List.sum_eq_foldl]
  · intro hlen
    unfold calculateSMA
    rw [hu, if_pos hlen]

/-- C3: on any warmed-up day, a BUY event is emitted iff
`shortSMA > longSMA`, `prevShortSMA ≤ prevLongSMA` and no position is open;
on fire, the position opens, `floor(cash / price)` shares are bought and
their cost is deducted from cash. -/
theorem buy_fires_iff (md : List ℚ) (s l : ℤ) (n : ℕ) (st : SimState)
    (hwarm : usize l ≤ (md.take (n + 1)).length) :
    ((∃ sh, (processDay md s l n st).2 =
        some (Event.buy (n + 1) (md.getD n 0) sh)) ↔
      (calculateSMA (md.take (n + 1)) s > calculateSMA (md.take (n + 1)) l ∧
        st.prevShortSMA ≤ st.prevLongSMA ∧ st.positionOpen = false)) ∧
    ((calculateSMA (md.take (n + 1)) s > calculateSMA (md.take (n + 1)) l ∧
        st.prevShortSMA ≤ st.prevLongSMA ∧ st.positionOpen = false) →
      (processDay md s l n st).1.positionOpen = true ∧
      (processDay md s l n st).1.sharesOwned = truncQ (st.cash / md.getD n 0) ∧
      (processDay md s l n st).1.cash =
        st.cash - truncQ (st.cash / md.getD n 0) * md.getD n 0) := by
  have hw : ¬ (md.take (n + 1)).length < usize l := not_lt.mpr hwarm
  by_cases hb : buySignal st (calculateSMA (md.take (n + 1)) s)
      (calculateSMA (md.take (n + 1)) l)
  · rw [processDay_buy hw hb]
    exact ⟨⟨fun _ => (buySignal_def _ _ _).mp hb, fun _ => ⟨_, rfl⟩⟩,
      fun _ => ⟨rfl, rfl, rfl⟩⟩
  · refine ⟨⟨?_, fun hrhs => absurd ((buySignal_def _ _ _).mpr hrhs) hb⟩,
      fun hrhs => absurd ((buySignal_def _ _ _).mpr hrhs) hb⟩
    rintro ⟨sh, hsh⟩
    by_cases hs : sellSignal st (calculateSMA (md.take (n + 1)) s)
        (calculateSMA (md.take (n + 1)) l)
    · rw [processDay_sell hw hb hs] at hsh
      simp at hsh
    · rw [processDay_none hw hb hs] at hsh
      simp at hsh

/-- C4: on any warmed-up day, a SELL event is emitted iff
`shortSMA < longSMA`, `prevShortSMA ≥ prevLongSMA` and a position is open;
on fire, cash increases by exactly `sharesOwned * currentPrice`, the share
count resets to 0 and the position closes. -/
theorem sell_fires_iff (md : List ℚ) (s l : ℤ) (n : ℕ) (st : SimState)
    (hwarm : usize l ≤ (md.take (n + 1)).length) :
    ((∃ sh c, (processDay md s l n st).2 =
        some (Event.sell (n + 1) (md.getD n 0) sh c)) ↔
      (calculateSMA (md.take (n + 1)) s < calculateSMA (md.take (n + 1)) l ∧
        st.prevShortSMA ≥ st.prevLongSMA ∧ st.positionOpen = true)) ∧
    ((calculateSMA (md.take (n + 1)) s < calculateSMA (md.take (n + 1)) l ∧
        st.prevShortSMA ≥ st.prevLongSMA ∧ st.positionOpen = true) →
      (processDay md s l n st).1.cash = st.cash + st.sharesOwned * md.getD n 0 ∧
      (processDay md s l n st).1.sharesOwned = 0 ∧
      (processDay md s l n st).1.positionOpen = false) := by
  have hw : ¬ (md.take (n + 1)).length < usize l := not_lt.mpr hwarm
  by_cases hb : buySignal st (calculateSMA (md.take (n + 1)) s)
      (calculateSMA (md.take (n + 1)) l)
  · have hnos : ∀ hrhs : calculateSMA (md.take (n + 1)) s <
        calculateSMA (md.take (n + 1)) l ∧
        st.prevShortSMA ≥ st.prevLongSMA ∧ st.positionOpen = true, False := by
      intro hrhs
      exact Bool.false_ne_true
        ((((buySignal_def _ _ _).mp hb).2.2).symm.trans hrhs.2.2)
    rw [processDay_buy hw hb]
    refine ⟨⟨?_, fun hrhs => absurd hrhs hnos⟩, fun hrhs => absurd hrhs hnos⟩
    rintro ⟨sh, c, hsh⟩
    simp at hsh
  · by_cases hs : sellSignal st (calculateSMA (md.take (n + 1)) s)
        (calculateSMA (md.take (n + 1)) l)
    · rw [processDay_sell hw hb hs]
      exact ⟨⟨fun _ => (sellSignal_def _ _ _).mp hs, fun _ => ⟨_, _, rfl⟩⟩,
        fun _ => ⟨rfl, rfl, rfl⟩⟩
    · rw [processDay_none hw hb hs]
      refine ⟨⟨?_, fun hrhs => absurd ((sellSignal_def _ _ _).mpr hrhs) hs⟩,
        fun hrhs => absurd ((sellSignal_def _ _ _).mpr hrhs) hs⟩
      rintro ⟨sh, c, hsh⟩
      simp at hsh

/-- C8: on a warm-up day (fewer than `longWindow` prices observed) the loop
leaves the whole detector state untouched and emits nothing; on a warmed-up
day, `prevShortSMA`/`prevLongSMA` are unconditionally set to the day's
`shortSMA`/`longSMA`, whether or not a signal fired. -/
theorem warmup_inert_and_prev_updated (md : List ℚ) (s l : ℤ) (n : ℕ)
    (st : SimState) :
    ((md.take (n + 1)).length < usize l →
      processDay md s l n st = (st, none)) ∧
    (usize l ≤ (md.take (n + 1)).length →
      (processDay md s l n st).1.prevShortSMA = calculateSMA (md.take (n + 1)) s ∧
      (processDay md s l n st).1.prevLongSMA = calculateSMA (md.take (n + 1)) l) := by
  constructor
  · exact processDay_warmup st
  · intro hwarm
    have hw : ¬ (md.take (n + 1)).length < usize l := not_lt.mpr hwarm
    by_cases hb : buySignal st (calculateSMA (md.take (n + 1)) s)
        (calculateSMA (md.take (n + 1)) l)
    · rw [processDay_buy hw hb]
      exact ⟨rfl, rfl⟩
    · by_cases hs : sellSignal st (calculateSMA (md.take (n + 1)) s)
          (calculateSMA (md.take (n + 1)) l)
      · rw [processDay_sell hw hb hs]
        exact ⟨rfl, rfl⟩
      · rw [processDay_none hw hb hs]
        exact ⟨rfl, rfl⟩

/-- C5: for every price sequence all of whose elements are positive, cash
and share count are nonnegative after every loop iteration and after the
end-of-run forced liquidation. -/
theorem cash_shares_never_negative (md : List ℚ) (s l : ℤ)
    (hpos : ∀ p ∈ md, 0 < p) (n : ℕ) :
    (0 ≤ (stateAfter md s l n).1.cash ∧
      0 ≤ (stateAfter md s l n).1.sharesOwned) ∧
    (0 ≤ (runSim md s l).1.cash ∧ 0 ≤ (runSim md s l).1.sharesOwned) := by
  refine ⟨nonnegInv_stateAfter md s l hpos n, ?_⟩
  have hnn := nonnegInv_stateAfter md s l hpos md.length
  cases hp : (stateAfter md s l md.length).1.positionOpen with
  | false =>
    rw [runSim_neg md s l hp]
    exact hnn
  | true =>
    rw [runSim_pos md s l hp]
    constructor
    · refine add_nonneg hnn.1 (mul_nonneg ?_ (getD_nonneg hpos _))
      exact_mod_cast hnn.2
    · exact le_refl 0

/-- C7 (amended): at every point during the run, `sharesOwned` is 0 whenever
no position is open. (The converse — a position being open implying a
positive share count — fails; see the counterexample.) -/
theorem no_position_no_shares (md : List ℚ) (s l : ℤ) (n : ℕ)
    (h : (stateAfter md s l n).1.positionOpen = false) :
    (stateAfter md s l n).1.sharesOwned = 0 :=
  sharesInv_stateAfter md s l n h

/-- C9: the price generator is a deterministic function of the seeded
increment stream, and the simulation is a deterministic function of the
price series and the window lengths: equal inputs give identical price
sequences, identical runs, identical event logs and equal final values. -/
theorem seeded_run_reproducible (changes₁ changes₂ : List ℚ) (md : List ℚ)
    (s l : ℤ) (h : changes₁ = changes₂) :
    generatePrices changes₁ = generatePrices changes₂ ∧
    runSim (generatePrices changes₁) s l = runSim (generatePrices changes₂) s l ∧
    (runSim md s l).2 = (runSim md s l).2 ∧
    finalValue md s l = finalValue md s l := by
  subst h
  exact ⟨rfl, rfl, rfl, rfl⟩

/-- C10: every trade conserves marked-to-market value at its own price: on
any day of any run on which a BUY or SELL fires at price `p = marketData[n]`,
`cash + sharesOwned * p` is unchanged across the trade, and likewise for the
end-of-run forced liquidation at the last price. -/
theorem each_trade_conserves_value (md : List ℚ) (s l : ℤ) (n : ℕ) :
    ((processDay md s l n (stateAfter md s l n).1).2.isSome = true →
      (processDay md s l n (stateAfter md s l n).1).1.cash +
        ((processDay md s l n (stateAfter md s l n).1).1.sharesOwned : ℚ) *
          md.getD n 0 =
      (stateAfter md s l n).1.cash +
        ((stateAfter md s l n).1.sharesOwned : ℚ) * md.getD n 0) ∧
    ((stateAfter md s l md.length).1.positionOpen = true →
      (runSim md s l).1.cash +
        ((runSim md s l).1.sharesOwned : ℚ) * md.getD (md.length - 1) 0 =
      (stateAfter md s l md.length).1.cash +
        ((stateAfter md s l md.length).1.sharesOwned : ℚ) *
          md.getD (md.length - 1) 0) := by
  constructor
  · intro hev
    by_cases hw : (md.take (n + 1)).length < usize l
    · rw [processDay_warmup _ hw] at hev
      simp at hev
    · by_cases hb : buySignal (stateAfter md s l n).1
          (calculateSMA (md.take (n + 1)) s) (calculateSMA (md.take (n + 1)) l)
      · have h0 : (stateAfter md s l n).1.sharesOwned = 0 :=
          sharesInv_stateAfter md s l n ((buySignal_def _ _ _).mp hb).2.2
        rw [processDay_buy hw hb, h0]
        show (stateAfter md s l n).1.cash -
            truncQ ((stateAfter md s l n).1.cash / md.getD n 0) * md.getD n 0 +
            (truncQ ((stateAfter md s l n).1.cash / md.getD n 0) : ℚ) *
              md.getD n 0 =
          (stateAfter md s l n).1.cash + ((0 : ℤ) : ℚ) * md.getD n 0
        push_cast
        ring
      · by_cases hs : sellSignal (stateAfter md s l n).1
            (calculateSMA (md.take (n + 1)) s) (calculateSMA (md.take (n + 1)) l)
        · rw [processDay_sell hw hb hs]
          show (stateAfter md s l n).1.cash +
              ((stateAfter md s l n).1.sharesOwned : ℚ) * md.getD n 0 +
              ((0 : ℤ) : ℚ) * md.getD n 0 =
            (stateAfter md s l n).1.cash +
              ((stateAfter md s l n).1.sharesOwned : ℚ) * md.getD n 0
          push_cast
          ring
        · rw [processDay_none hw hb hs] at hev
          simp at hev
  · intro hp
    rw [runSim_pos md s l hp]
    show (stateAfter md s l md.length).1.cash +
        ((stateAfter md s l md.length).1.sharesOwned : ℚ) *
          md.getD (md.length - 1) 0 +
        ((0 : ℤ) : ℚ) * md.getD (md.length - 1) 0 =
      (stateAfter md s l md.length).1.cash +
        ((stateAfter md s l md.length).1.sharesOwned : ℚ) *
          md.getD (md.length - 1) 0
    push_cast
    ring

/-! ### Concrete evaluations: the end-to-end run, the counterexamples and the
witnesses. `Rat.add`/`Rat.mul`/`Rat.inv`/`Rat.sub` are `@[irreducible]` in
Batteries, which blocks `decide`'s evaluation; they are made semireducible
locally so the kernel can compute with exact rationals. -/

section ConcreteEvaluations

attribute [local semireducible] Rat.add Rat.mul Rat.inv Rat.sub

set_option maxRecDepth 100000

/-- C1: on the monotone series `price[i] = 100 + i` (1-based, 200 days) with
windows 10/30, the run emits exactly one BUY, on day 30 (the first valid
day) at price 130 for 76 shares, no SELL, and the final value is the forced
liquidation `floor(10000/price[30]) * price[200] +
(10000 - floor(10000/price[30]) * price[30]) = 22920`
(`price[30] = monoPrices.getD 29 0 = 130`,
`price[200] = monoPrices.getD 199 0 = 300`). -/
theorem monotone_run_single_buy :
    (runSim monoPrices 10 30).2 =
      [Event.buy 30 130 76, Event.endOfRun 76 300] ∧
    finalValue monoPrices 10 30 = 22920 ∧
    finalValue monoPrices 10 30 =
      (⌊(10000 : ℚ) / monoPrices.getD 29 0⌋ : ℚ) * monoPrices.getD 199 0 +
        (10000 - (⌊(10000 : ℚ) / monoPrices.getD 29 0⌋ : ℚ) *
          monoPrices.getD 29 0) := by
  decide

/-- C6: the program performs no configuration validation. With the invalid
configuration `longWindow = -1` the simulation runs to completion silently
(no events) and reports the starting cash as final value, and `calculateSMA`
with the invalid `period = -1` silently returns the sentinel `0.0`: the
`size_t` conversion turns `-1` into `2^64 - 1`, so the warm-up/size guard
never passes. No configuration error is ever reported. -/
theorem invalid_config_not_rejected :
    calculateSMA [(100 : ℚ), 101, 102] (-1) = 0 ∧
    (runSim [(100 : ℚ), 101, 102] 10 (-1)).2 = [] ∧
    finalValue [(100 : ℚ), 101, 102] 10 (-1) = 10000 := by
  decide

/-- C7 counterexample: on the 30-day series `highPrices` (all prices above
the $10,000 cash) with windows 10/30, day 30's golden cross buys
`floor(10000/10030) = 0` shares, leaving the run in a state with
`positionOpen = true` and `sharesOwned = 0` — so `positionOpen` does not
imply a positive share count. -/
theorem position_open_with_zero_shares :
    (stateAfter highPrices 10 30 30).1.positionOpen = true ∧
    ¬ (0 < (stateAfter highPrices 10 30 30).1.sharesOwned) := by
  decide

/-- Witness for C2 at `prices = [1, 2, 3]`, `period = 2` and at
`prices = [1]`, `period = 2`. -/
theorem calculateSMA_contract_witness :
    calculateSMA [(1 : ℚ), 2, 3] 2 =
      ([(1 : ℚ), 2, 3].drop ([(1 : ℚ), 2, 3].length - (2 : ℤ).toNat)).sum /
        ((2 : ℤ) : ℚ) ∧
    calculateSMA [(1 : ℚ)] 2 = 0 :=
  ⟨(calculateSMA_contract [(1 : ℚ), 2, 3] 2 (by decide) (by decide)).1
      (by decide),
    (calculateSMA_contract [(1 : ℚ)] 2 (by decide) (by decide)).2 (by decide)⟩

/-- Witness for C3: on `[4, 6]` with windows 1/2, day 2 is warmed up, the
golden-cross condition holds from the initial state, a BUY is emitted and
the position opens. -/
theorem buy_fires_iff_witness :
    (∃ sh, (processDay [(4 : ℚ), 6] 1 2 1 initState).2 =
      some (Event.buy 2 ([(4 : ℚ), 6].getD 1 0) sh)) ∧
    (processDay [(4 : ℚ), 6] 1 2 1 initState).1.positionOpen = true :=
  ⟨(buy_fires_iff [(4 : ℚ), 6] 1 2 1 initState (by decide)).1.mpr (by decide),
    ((buy_fires_iff [(4 : ℚ), 6] 1 2 1 initState (by decide)).2
      (by decide)).1⟩

/-- Witness for C4: on `[6, 4]` with windows 1/2, from a position-open state
with 5 shares, day 2's death cross emits a SELL and resets the share count. -/
theorem sell_fires_iff_witness :
    (∃ sh c, (processDay [(6 : ℚ), 4] 1 2 1 ⟨100, 5, true, 3, 2⟩).2 =
      some (Event.sell 2 ([(6 : ℚ), 4].getD 1 0) sh c)) ∧
    (processDay [(6 : ℚ), 4] 1 2 1 ⟨100, 5, true, 3, 2⟩).1.sharesOwned = 0 :=
  ⟨(sell_fires_iff [(6 : ℚ), 4] 1 2 1 ⟨100, 5, true, 3, 2⟩ (by decide)).1.mpr
      (by decide),
    ((sell_fires_iff [(6 : ℚ), 4] 1 2 1 ⟨100, 5, true, 3, 2⟩ (by decide)).2
      (by decide)).2.1⟩

/-- Witness for C5 on the one-day series `[2]` with windows 1/1. -/
theorem cash_shares_never_negative_witness :
    (0 ≤ (stateAfter [(2 : ℚ)] 1 1 1).1.cash ∧
      0 ≤ (stateAfter [(2 : ℚ)] 1 1 1).1.sharesOwned) ∧
    (0 ≤ (runSim [(2 : ℚ)] 1 1).1.cash ∧
      0 ≤ (runSim [(2 : ℚ)] 1 1).1.sharesOwned) :=
  cash_shares_never_negative [(2 : ℚ)] 1 1 (by decide) 1

/-- Witness for the amended C7 on the one-day series `[3]` with windows 1/1
(no signal fires, the position stays closed, the share count is 0). -/
theorem no_position_no_shares_witness :
    (stateAfter [(3 : ℚ)] 1 1 1).1.sharesOwned = 0 :=
  no_position_no_shares [(3 : ℚ)] 1 1 1 (by decide)

/-- Witness for C8 on `[4, 6]` with windows 1/2: day 1 is warm-up and inert,
day 2 is warmed up and updates `prevLongSMA` to the day's long SMA. -/
theorem warmup_inert_and_prev_updated_witness :
    processDay [(4 : ℚ), 6] 1 2 0 initState = (initState, none) ∧
    (processDay [(4 : ℚ), 6] 1 2 1 initState).1.prevLongSMA =
      calculateSMA ([(4 : ℚ), 6].take 2) 2 :=
  ⟨(warmup_inert_and_prev_updated [(4 : ℚ), 6] 1 2 0 initState).1 (by decide),
    ((warmup_inert_and_prev_updated [(4 : ℚ), 6] 1 2 1 initState).2
      (by decide)).2⟩

/-- Witness for C9 at the increment stream `[1, -2, 3]` and the fixed series
`[5]`. -/
theorem seeded_run_reproducible_witness :
    generatePrices [(1 : ℚ), -2, 3] = generatePrices [(1 : ℚ), -2, 3] ∧
    runSim (generatePrices [(1 : ℚ), -2, 3]) 10 30 =
      runSim (generatePrices [(1 : ℚ), -2, 3]) 10 30 ∧
    (runSim [(5 : ℚ)] 10 30).2 = (runSim [(5 : ℚ)] 10 30).2 ∧
    finalValue [(5 : ℚ)] 10 30 = finalValue [(5 : ℚ)] 10 30 :=
  seeded_run_reproducible [(1 : ℚ), -2, 3] [(1 : ℚ), -2, 3] [(5 : ℚ)] 10 30
    rfl

/-- Witness for C10 on `[1, 2, 3]` with windows 1/2: a BUY fires on day 2 and
a position is still open at the end of the run, and both the trade and the
forced liquidation conserve marked-to-market value. -/
theorem each_trade_conserves_value_witness :
    ((processDay [(1 : ℚ), 2, 3] 1 2 1 (stateAfter [(1 : ℚ), 2, 3] 1 2 1).1).1.cash +
      ((processDay [(1 : ℚ), 2, 3] 1 2 1
          (stateAfter [(1 : ℚ), 2, 3] 1 2 1).1).1.sharesOwned : ℚ) *
        [(1 : ℚ), 2, 3].getD 1 0 =
      (stateAfter [(1 : ℚ), 2, 3] 1 2 1).1.cash +
        ((stateAfter [(1 : ℚ), 2, 3] 1 2 1).1.sharesOwned : ℚ) *
          [(1 : ℚ), 2, 3].getD 1 0) ∧
    ((runSim [(1 : ℚ), 2, 3] 1 2).1.cash +
      ((runSim [(1 : ℚ), 2, 3] 1 2).1.sharesOwned : ℚ) *
        [(1 : ℚ), 2, 3].getD ([(1 : ℚ), 2, 3].length - 1) 0 =
      (stateAfter [(1 : ℚ), 2, 3] 1 2 [(1 : ℚ), 2, 3].length).1.cash +
        ((stateAfter [(1 : ℚ), 2, 3] 1 2
            [(1 : ℚ), 2, 3].length).1.sharesOwned : ℚ) *
          [(1 : ℚ), 2, 3].getD ([(1 : ℚ), 2, 3].length - 1) 0) :=
  ⟨(each_trade_conserves_value [(1 : ℚ), 2, 3] 1 2 1).1 (by decide),
    (each_trade_conserves_value [(1 : ℚ), 2, 3] 1 2 1).2 (by decide)⟩

end ConcreteEvaluations

end TradingSim
